import Mathlib

/-!
Verification of the destination-side ETL engine of `jtl.py` (JSON→JSON ETL).

The Python source is embedded shallowly:

* JSON documents are the inductive `JVal`; Python objects are association
  lists in insertion order, as `json.load` produces (keys unique).
* In-place mutation of a tree is rendered as functional update along the
  navigated spine; documents are trees (acyclic, no internal sharing), so
  the two semantics agree node for node.
* `copy.deepcopy` is the identity on pure values (`deepcopy`); a second,
  identity-tagged model (`PVal`, at the end of the file) tracks Python
  object identity where aliasing itself is the property under study.
* Exceptions are `Except JtlError`; each constructor corresponds to one
  raise site family in the source, the payload being the exact message the
  Python code formats.
* The external jq evaluator (`evaluate_src`) is an opaque oracle argument,
  as the specification's §6 boundary prescribes.
-/

namespace Jtl

/-- JSON values: the data model of the engine.  Objects keep their fields in
insertion order, mirroring Python dicts produced by `json.load`. -/
inductive JVal where
  | null
  | bool (b : Bool)
  | num (n : Int)
  | str (s : String)
  | arr (elems : List JVal)
  | obj (fields : List (String × JVal))
deriving Repr

mutual

/-- Structural equality test for `JVal` (needed because `deriving DecidableEq`
does not handle the nesting through `List`). -/
def JVal.beq : JVal → JVal → Bool
  | .null, .null => true
  | .bool a, .bool b => a == b
  | .num a, .num b => a == b
  | .str a, .str b => a == b
  | .arr a, .arr b => JVal.beqList a b
  | .obj a, .obj b => JVal.beqFields a b
  | _, _ => false

def JVal.beqList : List JVal → List JVal → Bool
  | [], [] => true
  | x :: xs, y :: ys => JVal.beq x y && JVal.beqList xs ys
  | _, _ => false

def JVal.beqFields : List (String × JVal) → List (String × JVal) → Bool
  | [], [] => true
  | (k₁, v₁) :: xs, (k₂, v₂) :: ys => k₁ == k₂ && JVal.beq v₁ v₂ && JVal.beqFields xs ys
  | _, _ => false

end

mutual

theorem JVal.beq_iff : ∀ a b : JVal, JVal.beq a b = true ↔ a = b
  | .null, b => by cases b <;> simp [JVal.beq]
  | .bool _, b => by cases b <;> simp [JVal.beq]
  | .num _, b => by cases b <;> simp [JVal.beq]
  | .str _, b => by cases b <;> simp [JVal.beq]
  | .arr x, b => by
      cases b <;> simp [JVal.beq]
      exact JVal.beqList_iff x _
  | .obj x, b => by
      cases b <;> simp [JVal.beq]
      exact JVal.beqFields_iff x _

theorem JVal.beqList_iff : ∀ a b : List JVal, JVal.beqList a b = true ↔ a = b
  | [], b => by cases b <;> simp [JVal.beqList]
  | x :: xs, b => by
      cases b with
      | nil => simp [JVal.beqList]
      | cons y ys =>
          simp only [JVal.beqList, Bool.and_eq_true, List.cons.injEq]
          exact and_congr (JVal.beq_iff x y) (JVal.beqList_iff xs ys)

theorem JVal.beqFields_iff : ∀ a b : List (String × JVal), JVal.beqFields a b = true ↔ a = b
  | [], b => by cases b <;> simp [JVal.beqFields]
  | (k, v) :: xs, b => by
      cases b with
      | nil => simp [JVal.beqFields]
      | cons y ys =>
          obtain ⟨k', v'⟩ := y
          simp only [JVal.beqFields, Bool.and_eq_true, List.cons.injEq, Prod.mk.injEq]
          rw [JVal.beq_iff v v', JVal.beqFields_iff xs ys, beq_iff_eq]

end

instance : DecidableEq JVal := fun a b =>
  decidable_of_iff (JVal.beq a b = true) (JVal.beq_iff a b)

/-- Destination path segments: either an object key or an array index
(`parse_jq_path` produces `str` and `int` segments in the source). -/
inductive PathSeg where
  | name (s : String)
  | index (i : Nat)
deriving DecidableEq, Repr

/-- Error taxonomy.  Each constructor stands for one family of raise sites of
the source; the payload is the exact message text the Python code formats. -/
inductive JtlError where
  | syntaxErr (msg : String)
  | typeMismatch (msg : String)
  | unsupportedMode (mode : String)
  | invalidChainState (msg : String)
  | missingField (msg : String)
  | formatErr (msg : String)
  | exprError (msg : String)
  | decodeError (msg : String)
deriving DecidableEq, Repr

/-- Value-level rendering of Python's `copy.deepcopy`: on pure values a deep
copy is the value itself.  (Object identity is studied in the `PVal` model.) -/
def deepcopy (v : JVal) : JVal := v

/-- Lookup of `fs[k]` in a Python dict rendered as an ordered field list. -/
def objGet (fs : List (String × JVal)) (k : String) : Option JVal :=
  match fs with
  | [] => none
  | (k', v) :: rest => if k' = k then some v else objGet rest k

/-- Assignment `fs[k] = v` on a Python dict: an existing key keeps its
position, a new key is appended at the end. -/
def objSet (fs : List (String × JVal)) (k : String) (v : JVal) : List (String × JVal) :=
  match fs with
  | [] => [(k, v)]
  | (k', v') :: rest => if k' = k then (k', v) :: rest else (k', v') :: objSet rest k v

/-- The growth loop `while len(cur) <= i: cur.append(None)`. -/
def growTo (xs : List JVal) (i : Nat) : List JVal :=
  xs ++ List.replicate (i + 1 - xs.length) JVal.null

/-- Python truthiness of a JSON value (`if item["ctx"]:`, `x or {}`, …). -/
def pyTruthy : JVal → Bool
  | .null => false
  | .bool b => b
  | .num n => n ≠ 0
  | .str s => s ≠ ""
  | .arr xs => !xs.isEmpty
  | .obj fs => !fs.isEmpty

/-- Kind test `isinstance(v, dict)`. -/
def JVal.isObj : JVal → Bool
  | .obj _ => true
  | _ => false

/-- Kind test `isinstance(v, list)`. -/
def JVal.isArr : JVal → Bool
  | .arr _ => true
  | _ => false

mutual

/-- Embedding of `deep_merge(dst, src)`: deep-merge `src` into `dst` (dicts
only); on non-dicts it returns (a deep copy of) `src`. -/
def deep_merge (dst src : JVal) : JVal :=
  match dst, src with
  | .obj dfs, .obj sfs => .obj (deep_merge_fields dfs sfs)
  | _, _ => deepcopy src
termination_by sizeOf src
decreasing_by all_goals simp_wf

/-- The `for k, v in src.items()` loop of `deep_merge`, threading the mutated
`dst` field list. -/
def deep_merge_fields (dfs : List (String × JVal)) (sfs : List (String × JVal)) :
    List (String × JVal) :=
  match sfs with
  | [] => dfs
  | (k, v) :: rest =>
      let dfs' :=
        match objGet dfs k with
        | some dv =>
            if dv.isObj && v.isObj then objSet dfs k (deep_merge dv v)
            else objSet dfs k (deepcopy v)
        | none => objSet dfs k (deepcopy v)
      deep_merge_fields dfs' rest
termination_by sizeOf sfs
decreasing_by all_goals simp_wf <;> omega

end

/-- Effect on `dst` of the Python statement `deep_merge(dst, src)` when the
return value is discarded: `dst` is mutated exactly when both arguments are
dicts; otherwise it is left untouched. -/
def deep_merge_effect (dst src : JVal) : JVal :=
  match dst, src with
  | .obj _, .obj _ => deep_merge dst src
  | _, _ => dst

/-- Embedding of `_upsert_value(existing, new_value, delimiter)`: the
type-aware merge discipline, branch for branch in the source's order. -/
def upsert_value (existing new_value : JVal) (delimiter : String) : JVal :=
  match existing, new_value with
  | .str e, .str n =>
      if e = "" then .str n
      else if n = "" then .str e
      else .str (e ++ delimiter ++ n)
  | .arr xs, .arr ys => .arr (xs ++ ys)
  | .arr xs, n => .arr (xs ++ [n])
  | .obj _, .obj _ => deep_merge existing new_value
  | .null, n => deepcopy n
  | _, n => deepcopy n

/-- Write disciplines of `set_path_value`. -/
inductive WriteMode where
  | upsert
  | replace
deriving DecidableEq, Repr

/-- Fused embedding of `_ensure_parent`'s navigation loop together with
`set_path_value`'s final write, for a non-empty segment list.  Each recursive
step is one loop iteration: check the current container's kind against the
segment, grow arrays, instantiate a missing/`None` slot after the kind of the
next segment, descend, and reassemble the updated child (the functional image
of the in-place mutation). -/
def set_path_go (cur : JVal) (segs : List PathSeg) (value : JVal) (mode : WriteMode)
    (delim : String) : Except String JVal :=
  match segs with
  | [] => .ok cur
  | [last] =>
      match last with
      | .index i =>
          match cur with
          | .arr xs =>
              let xs := growTo xs i
              match mode with
              | .replace => .ok (.arr (xs.set i (deepcopy value)))
              | .upsert => .ok (.arr (xs.set i (upsert_value (xs.getD i .null) value delim)))
          | _ =>
              .error ("Target parent is not a list for index [" ++ toString i ++ "]")
      | .name k =>
          match cur with
          | .obj fs =>
              match mode with
              | .replace => .ok (.obj (objSet fs k (deepcopy value)))
              | .upsert =>
                  .ok (.obj (objSet fs k (upsert_value ((objGet fs k).getD .null) value delim)))
          | _ =>
              .error ("Target parent is not an object for key '" ++ k ++ "'")
  | seg :: rest =>
      match seg with
      | .index i =>
          match cur with
          | .arr xs =>
              let xs := growTo xs i
              let child := xs.getD i .null
              let child :=
                if child = .null then
                  match rest.head? with
                  | some (.index _) => JVal.arr []
                  | _ => JVal.obj []
                else child
              (set_path_go child rest value mode delim).map
                (fun child' => JVal.arr (xs.set i child'))
          | _ =>
              .error ("Encountered non-list while navigating index [" ++ toString i ++ "]")
      | .name k =>
          match cur with
          | .obj fs =>
              let child :=
                match objGet fs k with
                | none =>
                    match rest.head? with
                    | some (.index _) => JVal.arr []
                    | _ => JVal.obj []
                | some .null =>
                    match rest.head? with
                    | some (.index _) => JVal.arr []
                    | _ => JVal.obj []
                | some c => c
              (set_path_go child rest value mode delim).map
                (fun child' => JVal.obj (objSet fs k child'))
          | _ =>
              .error ("Encountered non-object while navigating field ." ++ k)

/-- Embedding of `set_path_value(root, path_segments, value, mode, delimiter)`:
the function's RETURN value.  On an empty path it returns the new whole-document
value without touching `root`; on a non-empty path it returns the mutated
`root`. -/
def set_path_value (root : JVal) (segs : List PathSeg) (value : JVal) (mode : WriteMode)
    (delim : String) : Except JtlError JVal :=
  match segs with
  | [] =>
      match mode with
      | .replace => .ok (deepcopy value)
      | .upsert => .ok (upsert_value root value delim)
  | _ :: _ => (set_path_go root segs value mode delim).mapError JtlError.typeMismatch

/-- Effect of `_upsert_value(root, value, delimiter)` on `root` itself when the
return value is discarded: only the dict-into-dict branch mutates `root` (via
`deep_merge` in place); every other branch builds a fresh value. -/
def upsert_root_effect (root value : JVal) (_delim : String) : JVal :=
  match root, value with
  | .obj _, .obj _ => deep_merge root value
  | _, _ => root

/-- State of the object passed as `root` after the call
`set_path_value(root, segs, value, mode, delimiter)` whose return value the
caller discards (as `apply_mapping` does).  For a non-empty path this is the
in-place mutation, i.e. the same as the return value; for the empty (root)
path the rebinding inside the callee is invisible to the caller, so only the
in-place part of `_upsert_value` survives. -/
def set_path_effect (root : JVal) (segs : List PathSeg) (value : JVal) (mode : WriteMode)
    (delim : String) : Except JtlError JVal :=
  match segs with
  | [] =>
      match mode with
      | .replace => .ok root
      | .upsert => .ok (upsert_root_effect root value delim)
  | _ :: _ => (set_path_go root segs value mode delim).mapError JtlError.typeMismatch

/-! Python string helpers: `str.lower`, `str.strip`, and the
`bytes(s, "utf-8").decode("unicode_escape")` codec used by `_unescape` and
`_decode_delim`.  The model is exact on ASCII (the alphabet all mode strings,
identifiers and escape introducers live in); the pieces of the codec that
need Python's Unicode name database (`\N{...}`) or produce lone surrogates
are rendered as decode errors. -/

/-- ASCII rendering of `str.lower()` (case folding of the mode string). -/
def pyLowerChar (c : Char) : Char :=
  if 'A' ≤ c ∧ c ≤ 'Z' then Char.ofNat (c.toNat + 32) else c

def pyLower (s : String) : String := String.mk (s.data.map pyLowerChar)

/-- Whitespace class of `str.strip()` / regex `\s` (ASCII part). -/
def isPySpace (c : Char) : Bool :=
  c = ' ' || c = '\t' || c = '\n' || c = '\r' || c.toNat = 11 || c.toNat = 12

/-- Embedding of `str.strip()`. -/
def pyStrip (s : String) : String :=
  String.mk (((s.data.dropWhile isPySpace).reverse.dropWhile isPySpace).reverse)

/-- UTF-8 encoding of one character, as `bytes(s, "utf-8")` produces. -/
def utf8EncodeChar (c : Char) : List Nat :=
  let n := c.toNat
  if n < 0x80 then [n]
  else if n < 0x800 then [0xC0 + n / 64, 0x80 + n % 64]
  else if n < 0x10000 then [0xE0 + n / 4096, 0x80 + n / 64 % 64, 0x80 + n % 64]
  else [0xF0 + n / 262144, 0x80 + n / 4096 % 64, 0x80 + n / 64 % 64, 0x80 + n % 64]

/-- Byte string `bytes(s, "utf-8")`. -/
def pyBytesUtf8 (s : String) : List Nat :=
  s.data.foldr (fun c acc => utf8EncodeChar c ++ acc) []

/-- Value of a hex digit byte, if it is one. -/
def hexVal? (b : Nat) : Option Nat :=
  if 48 ≤ b ∧ b ≤ 57 then some (b - 48)
  else if 97 ≤ b ∧ b ≤ 102 then some (b - 87)
  else if 65 ≤ b ∧ b ≤ 70 then some (b - 55)
  else none

/-- Octal digit byte (`'0'`–`'7'`). -/
def isOctal (b : Nat) : Bool := 48 ≤ b && b ≤ 55

/-- Codepoint guard: a `Char` exists for `n` (not a surrogate, in range).
Python's codec admits lone surrogates, which `Char` cannot carry; those cases
are modelled as decode errors and are outside every claim's inputs. -/
def mkChar? (n : Nat) : Except String Char :=
  if n < 0xD800 ∨ (0xDFFF < n ∧ n < 0x110000) then .ok (Char.ofNat n)
  else .error "surrogate or out-of-range codepoint (not modelled)"

/-- The `unicode_escape` decoder over a UTF-8 byte string: non-escape bytes
map through Latin-1; escape sequences follow CPython's table.  `\N{...}`
needs the Unicode name database and is modelled as a decode error. -/
def unicodeEscapeGo : Nat → List Nat → Except String (List Char)
  | _, [] => .ok []
  | 0, _ :: _ => .error "internal: codec fuel exhausted (unreachable)"
  | fuel + 1, b :: rest =>
      if b ≠ 92 then do
        let cs ← unicodeEscapeGo fuel rest
        let c ← mkChar? b
        .ok (c :: cs)
      else
        match rest with
        | [] => .error "\\ at end of string"
        | e :: tl =>
            if e = 10 then unicodeEscapeGo fuel tl
            else if e = 92 then do let cs ← unicodeEscapeGo fuel tl; .ok ('\\' :: cs)
            else if e = 39 then do let cs ← unicodeEscapeGo fuel tl; .ok ('\'' :: cs)
            else if e = 34 then do let cs ← unicodeEscapeGo fuel tl; .ok ('"' :: cs)
            else if e = 98 then do let cs ← unicodeEscapeGo fuel tl; .ok (Char.ofNat 8 :: cs)
            else if e = 102 then do let cs ← unicodeEscapeGo fuel tl; .ok (Char.ofNat 12 :: cs)
            else if e = 116 then do let cs ← unicodeEscapeGo fuel tl; .ok ('\t' :: cs)
            else if e = 110 then do let cs ← unicodeEscapeGo fuel tl; .ok ('\n' :: cs)
            else if e = 114 then do let cs ← unicodeEscapeGo fuel tl; .ok ('\r' :: cs)
            else if e = 118 then do let cs ← unicodeEscapeGo fuel tl; .ok (Char.ofNat 11 :: cs)
            else if e = 97 then do let cs ← unicodeEscapeGo fuel tl; .ok (Char.ofNat 7 :: cs)
            else if isOctal e then
              match tl with
              | d2 :: d3 :: tl3 =>
                  if isOctal d2 then
                    if isOctal d3 then do
                      let cs ← unicodeEscapeGo fuel tl3
                      let c ← mkChar? ((e - 48) * 64 + (d2 - 48) * 8 + (d3 - 48))
                      .ok (c :: cs)
                    else do
                      let cs ← unicodeEscapeGo fuel (d3 :: tl3)
                      let c ← mkChar? ((e - 48) * 8 + (d2 - 48))
                      .ok (c :: cs)
                  else do
                    let cs ← unicodeEscapeGo fuel (d2 :: d3 :: tl3)
                    let c ← mkChar? (e - 48)
                    .ok (c :: cs)
              | [d2] =>
                  if isOctal d2 then do
                    let cs ← unicodeEscapeGo fuel ([] : List Nat)
                    let c ← mkChar? ((e - 48) * 8 + (d2 - 48))
                    .ok (c :: cs)
                  else do
                    let cs ← unicodeEscapeGo fuel [d2]
                    let c ← mkChar? (e - 48)
                    .ok (c :: cs)
              | [] => do
                  let cs ← unicodeEscapeGo fuel ([] : List Nat)
                  let c ← mkChar? (e - 48)
                  .ok (c :: cs)
            else if e = 120 then
              match tl with
              | h1 :: h2 :: tl2 =>
                  match hexVal? h1, hexVal? h2 with
                  | some v1, some v2 => do
                      let cs ← unicodeEscapeGo fuel tl2
                      let c ← mkChar? (v1 * 16 + v2)
                      .ok (c :: cs)
                  | _, _ => .error "truncated \\xXX escape"
              | _ => .error "truncated \\xXX escape"
            else if e = 117 then
              match tl with
              | h1 :: h2 :: h3 :: h4 :: tl2 =>
                  match hexVal? h1, hexVal? h2, hexVal? h3, hexVal? h4 with
                  | some v1, some v2, some v3, some v4 => do
                      let cs ← unicodeEscapeGo fuel tl2
                      let c ← mkChar? (v1 * 4096 + v2 * 256 + v3 * 16 + v4)
                      .ok (c :: cs)
                  | _, _, _, _ => .error "truncated \\uXXXX escape"
              | _ => .error "truncated \\uXXXX escape"
            else if e = 85 then
              match tl with
              | h1 :: h2 :: h3 :: h4 :: h5 :: h6 :: h7 :: h8 :: tl2 =>
                  match hexVal? h1, hexVal? h2, hexVal? h3, hexVal? h4,
                      hexVal? h5, hexVal? h6, hexVal? h7, hexVal? h8 with
                  | some v1, some v2, some v3, some v4, some v5, some v6, some v7, some v8 => do
                      let cs ← unicodeEscapeGo fuel tl2
                      let n := ((((((v1 * 16 + v2) * 16 + v3) * 16 + v4) * 16 + v5) * 16 + v6)
                        * 16 + v7) * 16 + v8
                      if n < 0x110000 then do
                        let c ← mkChar? n
                        .ok (c :: cs)
                      else .error "illegal Unicode character"
                  | _, _, _, _, _, _, _, _ =>
                      .error "truncated \\UXXXXXXXX escape"
              | _ => .error "truncated \\UXXXXXXXX escape"
            else if e = 78 then
              .error "\\N escapes need the Unicode name database (not modelled)"
            else do
              let cs ← unicodeEscapeGo fuel tl
              let c ← mkChar? e
              .ok ('\\' :: c :: cs)

/-- Embedding of `bytes(s, "utf-8").decode("unicode_escape")`, the expression
shared by `_unescape` and `_decode_delim`. -/
def pyUnicodeEscape (s : String) : Except String String := do
  let cs ← unicodeEscapeGo ((pyBytesUtf8 s).length + 1) (pyBytesUtf8 s)
  .ok (String.mk cs)

/-! The destination-path parser `parse_jq_path`, token for token after the
regex `_PATH_TOKEN_RE`: `.identifier`, `[digits]`, `["…"]`, `['…']`.  The
alternatives are mutually exclusive on their first significant character, so
the regex is deterministic and a recursive-descent rendering is exact. -/

/-- First character class of an identifier: `[A-Za-z_]`. -/
def isIdentStart (c : Char) : Bool := c.isAlpha || c = '_'

/-- Continuation class of an identifier: `[A-Za-z0-9_]`. -/
def isIdentChar (c : Char) : Bool := c.isAlphanum || c = '_'

/-- Numeric value of a digit run, as Python's `int()`. -/
def digitsToNat (ds : List Char) : Nat :=
  ds.foldl (fun acc c => acc * 10 + (c.toNat - 48)) 0

/-- Body of a quoted-key token: the regex `((?:[^q\\]|\\.)*)q` for quote
character `q`.  Returns the raw (still escaped) content and the remainder
after the closing quote; `\\.` does not cross a newline, matching `re.`'s
dot. -/
def parseQuoted (q : Char) : List Char → Option (List Char × List Char)
  | [] => none
  | c :: rest =>
      if c = q then some ([], rest)
      else if c = '\\' then
        match rest with
        | c2 :: rest2 =>
            if c2 = '\n' then none
            else
              match parseQuoted q rest2 with
              | some (cont, rem) => some (c :: c2 :: cont, rem)
              | none => none
        | [] => none
      else
        match parseQuoted q rest with
        | some (cont, rem) => some (c :: cont, rem)
        | none => none

theorem parseQuoted_length (q : Char) :
    ∀ cs cont rem, parseQuoted q cs = some (cont, rem) → rem.length < cs.length
  | [], cont, rem => by simp [parseQuoted]
  | [c], cont, rem => by
      intro h
      unfold parseQuoted at h
      split at h
      · simp only [Option.some.injEq, Prod.mk.injEq] at h
        obtain ⟨-, rfl⟩ := h
        simp
      · split at h
        · exact absurd h (by simp)
        · exact absurd h (by simp [parseQuoted])
  | c :: c2 :: rest2, cont, rem => by
      intro h
      unfold parseQuoted at h
      split at h
      · simp only [Option.some.injEq, Prod.mk.injEq] at h
        obtain ⟨-, rfl⟩ := h
        simp
      · split at h
        · split at h
          · rename_i c2' rest2' heq
            cases heq
            split at h
            · exact absurd h (by simp)
            · split at h
              · rename_i cont2 rem2 hrec
                have ih := parseQuoted_length q rest2 cont2 rem2 hrec
                simp only [Option.some.injEq, Prod.mk.injEq] at h
                obtain ⟨-, rfl⟩ := h
                simp only [List.length_cons]
                omega
              · exact absurd h (by simp)
          · rename_i heq
            exact absurd heq (by simp)
        · split at h
          · rename_i cont2 rem2 hrec
            have ih := parseQuoted_length q (c2 :: rest2) cont2 rem2 hrec
            simp only [Option.some.injEq, Prod.mk.injEq] at h
            obtain ⟨-, rfl⟩ := h
            simp only [List.length_cons] at ih ⊢
            omega
          · exact absurd h (by simp)

/-- Raw token produced by one regex match, before unescaping. -/
inductive RawTok where
  | ident (s : List Char)
  | idx (n : Nat)
  | quoted (raw : List Char)
deriving DecidableEq, Repr

/-- One match of `_PATH_TOKEN_RE` at the current position: returns the token
and the unconsumed remainder, or `none` when no alternative matches. -/
def matchToken : List Char → Option (RawTok × List Char)
  | '.' :: c :: rest =>
      if isIdentStart c then
        some (.ident ((c :: rest).takeWhile isIdentChar), (c :: rest).dropWhile isIdentChar)
      else none
  | '[' :: rest =>
      match rest.dropWhile isPySpace with
      | c :: rest2 =>
          if c.isDigit then
            match ((c :: rest2).dropWhile Char.isDigit).dropWhile isPySpace with
            | ']' :: rest4 =>
                some (.idx (digitsToNat ((c :: rest2).takeWhile Char.isDigit)), rest4)
            | _ => none
          else if c = '"' || c = '\'' then
            match parseQuoted c rest2 with
            | some (raw, rem) =>
                match rem.dropWhile isPySpace with
                | ']' :: rem2 => some (.quoted raw, rem2)
                | _ => none
            | none => none
          else none
      | [] => none
  | _ => none

theorem dropWhile_eq_cons_length {α} (p : α → Bool) (l : List α) (x : α) (xs : List α)
    (h : l.dropWhile p = x :: xs) : xs.length < l.length := by
  have hle := (List.dropWhile_sublist (l := l) p).length_le
  rw [h] at hle
  simp only [List.length_cons] at hle
  omega

theorem matchToken_length :
    ∀ cs tok rem, matchToken cs = some (tok, rem) → rem.length < cs.length := by
  intro cs tok rem h
  unfold matchToken at h
  split at h
  · -- the `.identifier` alternative
    rename_i c rest
    split at h
    · rename_i hs
      simp only [Option.some.injEq, Prod.mk.injEq] at h
      obtain ⟨-, rfl⟩ := h
      have hne : (c :: rest).dropWhile isIdentChar = rest.dropWhile isIdentChar := by
        rw [List.dropWhile_cons]
        have hc : isIdentChar c = true := by
          simp only [isIdentChar, isIdentStart, Bool.or_eq_true] at hs ⊢
          rcases hs with h' | h'
          · exact Or.inl (by simp [Char.isAlphanum, h'])
          · exact Or.inr h'
        simp [hc]
      rw [hne]
      have := (List.dropWhile_sublist (l := rest) isIdentChar).length_le
      simp only [List.length_cons]
      omega
    · exact absurd h (by simp)
  · -- the bracket alternatives
    rename_i rest
    split at h
    · rename_i c rest2 h1
      have hr2 : rest2.length < rest.length := dropWhile_eq_cons_length _ _ _ _ h1
      split at h
      · -- `[digits]`
        split at h
        · rename_i rest4 h3
          simp only [Option.some.injEq, Prod.mk.injEq] at h
          obtain ⟨-, rfl⟩ := h
          have hB := (List.dropWhile_sublist
            (l := (c :: rest2).dropWhile Char.isDigit) isPySpace).length_le
          have hA := (List.dropWhile_sublist (l := c :: rest2) Char.isDigit).length_le
          rw [h3] at hB
          simp only [List.length_cons] at hA hB ⊢
          omega
        · exact absurd h (by simp)
      · split at h
        · -- quoted alternatives
          split at h
          · rename_i raw rem1 hq
            have hrem1 := parseQuoted_length c rest2 raw rem1 hq
            split at h
            · rename_i rem2 h4
              simp only [Option.some.injEq, Prod.mk.injEq] at h
              obtain ⟨-, rfl⟩ := h
              have := dropWhile_eq_cons_length _ _ _ _ h4
              simp only [List.length_cons] at hr2 hrem1 ⊢
              omega
            · exact absurd h (by simp)
          · exact absurd h (by simp)
        · exact absurd h (by simp)
    · exact absurd h (by simp)
  · exact absurd h (by simp)

/-- Mapping from one raw token to a path segment; quoted keys go through
`_unescape` (which can raise, propagated as a decode error). -/
def tokToSeg : RawTok → Except JtlError PathSeg
  | .ident s => .ok (.name (String.mk s))
  | .idx n => .ok (.index n)
  | .quoted raw =>
      match (pyUnicodeEscape (String.mk raw)).mapError JtlError.decodeError with
      | .error e => .error e
      | .ok s => .ok (.name s)

/-- The scanning loop of `parse_jq_path`: repeatedly match a token; a failed
match at position 0 of the literal path `"."` yields the empty (root) segment
sequence, any other failed match is a syntax error naming the offending
remainder.  The loop recurses on a fuel counter so that it computes by
structural recursion; every token consumes at least one character
(`matchToken_length`), so the starting fuel `cs.length + 1` used by
`parse_jq_path` is never exhausted (`parseSegsGo_fuel_sufficient`). -/
def parseSegsGo (path : String) : Nat → List Char → Bool → Except JtlError (List PathSeg)
  | 0, _, _ =>
      .error (.syntaxErr "internal: parser fuel exhausted (unreachable)")
  | _ + 1, [], _ => .ok []
  | fuel + 1, c :: rest, first =>
      match matchToken (c :: rest) with
      | none =>
          if first && path = "." then .ok []
          else
            .error (.syntaxErr ("Unsupported or non-concrete dst path near: '" ++
              String.mk (c :: rest) ++ "' (full: " ++ path ++ ")"))
      | some (tok, rem) =>
          match tokToSeg tok with
          | .error e => .error e
          | .ok seg =>
              match parseSegsGo path fuel rem false with
              | .error e => .error e
              | .ok segs => .ok (seg :: segs)

theorem parseSegsGo_fuel_sufficient (path : String) :
    ∀ f1 f2 cs first, cs.length < f1 → cs.length < f2 →
      parseSegsGo path f1 cs first = parseSegsGo path f2 cs first := by
  intro f1
  induction f1 with
  | zero => intro f2 cs first h1; omega
  | succ f ih =>
      intro f2 cs first h1 h2
      cases f2 with
      | zero => omega
      | succ g =>
          cases cs with
          | nil => rfl
          | cons c rest =>
              rcases hm : matchToken (c :: rest) with - | ⟨tok, rem⟩
              · simp only [parseSegsGo, hm]
              · have hlt := matchToken_length _ _ _ hm
                simp only [List.length_cons] at h1 h2 hlt
                simp only [parseSegsGo, hm]
                rw [ih g rem false (by omega) (by omega)]

/-- Embedding of `parse_jq_path(path)`: concrete lvalue paths only. -/
def parse_jq_path (path : String) : Except JtlError (List PathSeg) :=
  if path = "" || path.front ≠ '.' then
    .error (.syntaxErr ("Destination path must start with '.': " ++ path))
  else parseSegsGo path (path.data.length + 1) path.data true

/-! The ETL core: `apply_mapping` and `run_etl`.  The jq evaluator
(`evaluate_src`) is an external collaborator; it is passed in as an opaque
pure function of the expression, the source document, the context and the
prelude fragment, its failures wrapped as `exprError`. -/

/-- One mapping row, as read from a well-formed spec file.  `mode` and
`delimiter` are optional; `delimiter := some none` renders a JSON `null` in
the `delimiter` slot (which the source treats like an absent key). -/
structure Mapping where
  src : String
  dst : String
  mode : Option String := none
  delimiter : Option (Option String) := none
deriving DecidableEq, Repr

/-- Signature of the external evaluator boundary: expression, source
document, context object, prelude fragment, to an ordered result list. -/
abbrev Evaluator := String → JVal → JVal → String → Except String (List JVal)

/-- Embedding of `_decode_delim(s)` (same codec as `_unescape`); a codec
failure is a `UnicodeDecodeError`, wrapped as `decodeError`. -/
def decode_delim (s : String) : Except JtlError String :=
  (pyUnicodeEscape s).mapError JtlError.decodeError

/-- Embedding of `apply_mapping(src_obj, dst_obj, mapping, delimiter, ctx,
prelude)`.  The returned document is the state of the caller's `dst_obj`
after the call: `apply_mapping` discards `set_path_value`'s return value, so
each write contributes only its in-place effect (`set_path_effect`). -/
def apply_mapping (evalSrc : Evaluator) (src_obj dst_obj : JVal) (m : Mapping)
    (delimiter : String) (ctx : JVal) (pre : String) : Except JtlError JVal :=
  let mode := pyLower (m.mode.getD "upsert")
  if mode ≠ "upsert" ∧ mode ≠ "replace" then
    .error (.unsupportedMode mode)
  else
    match
      (match m.delimiter with
       | some (some s) => decode_delim s
       | _ => .ok delimiter) with
    | .error e => .error e
    | .ok eff_delim =>
        match (evalSrc m.src src_obj ctx pre).mapError JtlError.exprError with
        | .error e => .error e
        | .ok results =>
            match parse_jq_path m.dst with
            | .error e => .error e
            | .ok segs =>
                if mode = "replace" then
                  let value : JVal :=
                    match results with
                    | [] => .null
                    | [v] => v
                    | vs => .arr vs
                  set_path_effect dst_obj segs value .replace eff_delim
                else
                  results.foldlM (fun d v => set_path_effect d segs v .upsert eff_delim) dst_obj

/-- Embedding of `run_etl(mappings, src_obj, dst_obj, delimiter, ctx,
prelude)`: the mappings are applied in document order to the same destination
object.  (The `'src' in mapping and 'dst' in mapping` presence check is
identically true of the typed `Mapping` record and therefore drops out.) -/
def run_etl (evalSrc : Evaluator) (mappings : List Mapping) (src_obj dst_obj : JVal)
    (delimiter : String) (ctx : JVal) (pre : String) : Except JtlError JVal :=
  mappings.foldlM (fun d m => apply_mapping evalSrc src_obj d m delimiter ctx pre) dst_obj

/-! Spec loading (`load_etl_file`), list form.  The file read and `json.load`
stay outside the model; `load_etl_list` consumes the decoded JSON array. -/

/-- The value `(x or "")` followed by `.strip()` applied to a `with` entry;
a truthy non-string raises (`str.strip` does not exist on it). -/
def withToPrelude (v : JVal) : Except JtlError String :=
  if pyTruthy v then
    match v with
    | .str s => .ok (pyStrip s)
    | _ => .error (.formatErr "'with' value has no strip attribute")
  else .ok ""

/-- The test `isinstance(item, dict) and "ctx" in item and len(item) == 1`,
returning the `ctx` payload when it holds (a loaded dict has unique keys, so
the test holds exactly of a one-field object keyed `"ctx"`). -/
def ctxVal? : JVal → Option JVal
  | .obj [(k, v)] => if k = "ctx" then some v else none
  | _ => none

/-- The test `isinstance(item, dict) and "with" in item and len(item) == 1`,
returning the `with` payload when it holds. -/
def withVal? : JVal → Option JVal
  | .obj [(k, v)] => if k = "with" then some v else none
  | _ => none

/-- Loop of `load_etl_file` over a list-form spec, carrying the accumulated
mappings, context and prelude — one branch per arm of the source's
`if`/`elif`/`else` chain: singleton `{"ctx": …}` entries deep-merge into the
accumulated context when truthy, singleton `{"with": …}` entries overwrite
the prelude (trimmed), and every other element is appended to the mapping
list. -/
def load_etl_go (items : List JVal) (ms : List JVal) (ctx : JVal) (pre : String) :
    Except JtlError (List JVal × JVal × String) :=
  match items with
  | [] => .ok (ms, ctx, pre)
  | item :: rest =>
      match ctxVal? item with
      | some v =>
          if pyTruthy v then load_etl_go rest ms (deep_merge_effect ctx v) pre
          else load_etl_go rest ms ctx pre
      | none =>
          match withVal? item with
          | some v =>
              match withToPrelude v with
              | .error e => .error e
              | .ok p => load_etl_go rest ms ctx p
          | none => load_etl_go rest (ms ++ [item]) ctx pre

/-- Embedding of `load_etl_file` on a decoded list-form spec. -/
def load_etl_list (items : List JVal) : Except JtlError (List JVal × JVal × String) :=
  load_etl_go items [] (.obj []) ""

/-! The meta-ETL runner `run_meta`.  All file I/O and path joining is
abstracted into a `ChainEnv` of pure oracles, per the specification's
external-interface boundary; everything downstream of the reads is the
in-memory chain loop, embedded faithfully. -/

/-- One chain step, as decoded from the meta spec: `step.get("etl")`,
`step.get("src")`, `step.get("dst")`, `step.get("ctx", {}) or {}` and
`step.get("options", {}).get("delimiter")`. -/
structure MetaStep where
  etl : Option String := none
  src : Option String := none
  dst : Option String := none
  ctx : JVal := .obj []
  optDelimiter : Option String := none
deriving DecidableEq, Repr

/-- Environment of external collaborators for a chain run: ETL spec loading
(already shaped into typed mappings), JSON document loading, file existence,
relative path joining, and the jq evaluator. -/
structure ChainEnv where
  loadEtl : String → Except JtlError (List Mapping × JVal × String)
  loadJson : String → Except JtlError JVal
  pathExists : String → Bool
  join : String → String → String
  evalSrc : Evaluator

/-- Falsiness of an optional string, as Python's `not x` sees a missing key,
`None`, or the empty string. -/
def optStrFalsy : Option String → Bool
  | none => true
  | some s => s = ""

/-- The step loop of `run_meta`, carrying the one-element chain memory
`prev_obj` and the running counter `idx` (Python's `enumerate(steps, 1)`).
Returns the final step's output. -/
def runMetaSteps (env : ChainEnv) (dir : String) (meta_ctx : JVal)
    (default_delimiter : String) : Nat → Option JVal → Option JVal → List MetaStep →
    Except JtlError (Option JVal)
  | _, _, finalObj, [] => .ok finalObj
  | idx, prevObj, _, step :: rest =>
      if optStrFalsy step.etl || optStrFalsy step.src then
        .error (.missingField ("Step " ++ toString idx ++
          ": missing required keys 'etl' and/or 'src'"))
      else
        match step.etl, step.src with
        | some etl_rel, some src_rel =>
            match env.loadEtl (env.join dir etl_rel) with
            | .error e => .error e
            | .ok (mappings, etl_ctx, pre) =>
                let eff_ctx := deep_merge_effect
                  (deep_merge_effect (deepcopy meta_ctx) etl_ctx)
                  (if pyTruthy step.ctx then step.ctx else .obj [])
                let step_delim := step.optDelimiter.getD default_delimiter
                match
                  (if src_rel = "$prev" then
                    match prevObj with
                    | none =>
                        Except.error (.invalidChainState ("Step " ++ toString idx ++
                          ": src '$prev' used but no previous output exists"))
                    | some p => Except.ok p
                  else env.loadJson (env.join dir src_rel)) with
                | .error e => .error e
                | .ok src_obj =>
                    match
                      (if step.dst = some "$prev" then
                        match prevObj with
                        | none =>
                            Except.error (.invalidChainState ("Step " ++ toString idx ++
                              ": dst '$prev' used but no previous output exists"))
                        | some p => Except.ok (deepcopy p)
                      else
                        match step.dst with
                        | some dst_rel =>
                            if dst_rel = "" then Except.ok (JVal.obj [])
                            else if env.pathExists (env.join dir dst_rel) then
                              env.loadJson (env.join dir dst_rel)
                            else Except.ok (JVal.obj [])
                        | none => Except.ok (JVal.obj [])) with
                    | .error e => .error e
                    | .ok dst_obj =>
                        match run_etl env.evalSrc mappings src_obj dst_obj step_delim
                            eff_ctx pre with
                        | .error e => .error e
                        | .ok out =>
                            runMetaSteps env dir meta_ctx default_delimiter
                              (idx + 1) (some out) (some out) rest
        | _, _ =>
            .error (.missingField ("Step " ++ toString idx ++
              ": missing required keys 'etl' and/or 'src'"))

/-- Embedding of `run_meta(meta_path, default_delimiter)` downstream of the
meta file read: the chain-level context, the non-empty `steps` check, and the
step loop.  `dir` plays `os.path.dirname(meta_path)`, `metaName` the path
text used in the empty-steps message. -/
def runMeta (env : ChainEnv) (dir metaName : String) (meta_ctx : JVal)
    (steps : List MetaStep) (default_delimiter : String) : Except JtlError (Option JVal) :=
  if steps.isEmpty then
    .error (.formatErr (metaName ++ ": 'steps' must be a non-empty array"))
  else
    runMetaSteps env dir (if pyTruthy meta_ctx then meta_ctx else .obj [])
      default_delimiter 1 none none steps

/-! Identity-tagged model.  Python's aliasing discipline cannot be seen on
pure values, so the copy-discipline claims are read over `PVal`: the same
JSON trees, but every mutable node (list or dict) carries the identity of
the Python object realising it.  Two trees share mutable substructure
exactly when their identity sets intersect.  Allocation of a fresh object
threads a counter `c`; every id below `c` is "already allocated".  The
functions mirror `_upsert_value`, `deep_merge`, `copy.deepcopy` and the
final dict write of `set_path_value` with their object allocations made
explicit: `existing + new_value` builds a fresh list object whose ELEMENTS
are the operand's element objects themselves, `deepcopy` allocates a fresh
object for every mutable node, and `deep_merge` mutates `dst` in place
(keeping its identity) while deep-copying every value taken from `src`. -/

/-- JSON values with object identities on the mutable (list/dict) nodes. -/
inductive PVal where
  | null
  | bool (b : Bool)
  | num (n : Int)
  | str (s : String)
  | arr (id : Nat) (elems : List PVal)
  | obj (id : Nat) (fields : List (String × PVal))
deriving Repr

mutual

/-- Identities of all mutable nodes of a tree. -/
def PVal.mutIds : PVal → List Nat
  | .null => []
  | .bool _ => []
  | .num _ => []
  | .str _ => []
  | .arr i xs => i :: PVal.mutIdsList xs
  | .obj i fs => i :: PVal.mutIdsFields fs

def PVal.mutIdsList : List PVal → List Nat
  | [] => []
  | v :: vs => v.mutIds ++ PVal.mutIdsList vs

def PVal.mutIdsFields : List (String × PVal) → List Nat
  | [] => []
  | (_, v) :: fs => v.mutIds ++ PVal.mutIdsFields fs

end

/-- Kind test `isinstance(v, dict)` on tagged values. -/
def PVal.isObjP : PVal → Bool
  | .obj _ _ => true
  | _ => false

/-- Kind test `isinstance(v, list)` on tagged values. -/
def PVal.isArrP : PVal → Bool
  | .arr _ _ => true
  | _ => false

/-- Dict lookup on tagged values. -/
def pObjGet (fs : List (String × PVal)) (k : String) : Option PVal :=
  match fs with
  | [] => none
  | (k', v) :: rest => if k' = k then some v else pObjGet rest k

/-- Dict assignment on tagged values (the dict object's own id is unchanged,
which is why these functions carry only the field lists). -/
def pObjSet (fs : List (String × PVal)) (k : String) (v : PVal) : List (String × PVal) :=
  match fs with
  | [] => [(k, v)]
  | (k', v') :: rest => if k' = k then (k', v) :: rest else (k', v') :: pObjSet rest k v

mutual

/-- `copy.deepcopy` with explicit allocation: every mutable node of the copy
is a fresh object (ids taken from the counter upward). -/
def deepcopyP : PVal → Nat → PVal × Nat
  | .null, c => (.null, c)
  | .bool b, c => (.bool b, c)
  | .num n, c => (.num n, c)
  | .str s, c => (.str s, c)
  | .arr _ xs, c =>
      let (ys, c') := deepcopyListP xs (c + 1)
      (.arr c ys, c')
  | .obj _ fs, c =>
      let (gs, c') := deepcopyFieldsP fs (c + 1)
      (.obj c gs, c')

def deepcopyListP : List PVal → Nat → List PVal × Nat
  | [], c => ([], c)
  | v :: vs, c =>
      let (v', c1) := deepcopyP v c
      let (vs', c2) := deepcopyListP vs c1
      (v' :: vs', c2)

def deepcopyFieldsP : List (String × PVal) → Nat → List (String × PVal) × Nat
  | [], c => ([], c)
  | (k, v) :: fs, c =>
      let (v', c1) := deepcopyP v c
      let (fs', c2) := deepcopyFieldsP fs c1
      ((k, v') :: fs', c2)

end

mutual

/-- `deep_merge(dst, src)` on tagged values: the merged dict keeps `dst`'s
identity; values taken from `src` are deep-copied (fresh ids). -/
def deep_mergeP (dst src : PVal) (c : Nat) : PVal × Nat :=
  match dst, src with
  | .obj i dfs, .obj _ sfs =>
      let (dfs', c') := deep_merge_fieldsP dfs sfs c
      (.obj i dfs', c')
  | _, _ => deepcopyP src c
termination_by sizeOf src
decreasing_by all_goals simp_wf

/-- The `for k, v in src.items()` loop of `deep_merge` on tagged values. -/
def deep_merge_fieldsP (dfs : List (String × PVal)) (sfs : List (String × PVal))
    (c : Nat) : List (String × PVal) × Nat :=
  match sfs with
  | [] => (dfs, c)
  | (k, v) :: rest =>
      match pObjGet dfs k with
      | some dv =>
          if dv.isObjP && v.isObjP then
            let (m, c1) := deep_mergeP dv v c
            deep_merge_fieldsP (pObjSet dfs k m) rest c1
          else
            let (v', c1) := deepcopyP v c
            deep_merge_fieldsP (pObjSet dfs k v') rest c1
      | none =>
          let (v', c1) := deepcopyP v c
          deep_merge_fieldsP (pObjSet dfs k v') rest c1
termination_by sizeOf sfs
decreasing_by all_goals simp_wf <;> omega

end

/-- `_upsert_value(existing, new_value, delimiter)` on tagged values.  The
array branches render `existing + new_value` and `existing + [new_value]`:
a FRESH list object whose elements are the operands' element objects (and,
for a non-list `new_value`, the `new_value` object itself) — not copies. -/
def upsertP (existing new_value : PVal) (delim : String) (c : Nat) : PVal × Nat :=
  match existing, new_value with
  | .str e, .str n =>
      if e = "" then (.str n, c)
      else if n = "" then (.str e, c)
      else (.str (e ++ delim ++ n), c)
  | .arr _ xs, .arr _ ys => (.arr c (xs ++ ys), c + 1)
  | .arr _ xs, n => (.arr c (xs ++ [n]), c + 1)
  | .obj _ _, .obj _ _ => deep_mergeP existing new_value c
  | .null, n => deepcopyP n c
  | _, n => deepcopyP n c

/-- The dict-final-segment write of `set_path_value` on tagged values:
`parent[last] = deepcopy(value)` for replace,
`parent[last] = _upsert_value(parent.get(last, None), value, delimiter)` for
upsert.  The parent dict keeps its identity. -/
def setKeyP (rootId : Nat) (rootFields : List (String × PVal)) (k : String) (value : PVal)
    (mode : WriteMode) (delim : String) (c : Nat) : PVal × Nat :=
  match mode with
  | .replace =>
      let (v', c1) := deepcopyP value c
      (.obj rootId (pObjSet rootFields k v'), c1)
  | .upsert =>
      let (v', c1) := upsertP ((pObjGet rootFields k).getD .null) value delim c
      (.obj rootId (pObjSet rootFields k v'), c1)

/-- The element objects that `_upsert_value`'s array branch splices into the
destination list: the elements of a list `new_value`, or the `new_value`
object itself otherwise. -/
def elemsOrSelf : PVal → List PVal
  | .arr _ ys => ys
  | v => [v]

/-! ## Theorems about the claims -/

/-- Evaluator oracle producing a fixed result list, used to instantiate the
external-evaluator boundary at concrete inputs. -/
def constEval (rs : List JVal) : Evaluator := fun _ _ _ _ => .ok rs

/-- Segment-kind/container-kind conflict, as the specification's navigation
invariant words it: an integer segment needs a list, a string segment needs
a dict. -/
def conflicts (v : JVal) (s : PathSeg) : Bool :=
  match s, v with
  | .index _, .arr _ => false
  | .index _, _ => true
  | .name _, .obj _ => false
  | .name _, _ => true

/-- The message the source formats for a kind conflict at a segment:
`final` tells whether the segment is the path's last one (the write site)
or an intermediate navigation step. -/
def conflictMsg (s : PathSeg) (final : Bool) : String :=
  match s, final with
  | .index i, true => "Target parent is not a list for index [" ++ toString i ++ "]"
  | .name k, true => "Target parent is not an object for key '" ++ k ++ "'"
  | .index i, false => "Encountered non-list while navigating index [" ++ toString i ++ "]"
  | .name k, false => "Encountered non-object while navigating field ." ++ k

/-- C4: for all strings `existing`, `newValue` and every delimiter,
`_upsert_value` returns `newValue` when `existing` is empty, `existing` when
`newValue` is empty, and the delimiter-joined concatenation otherwise;
being a pure function of immutable Python strings, it mutates neither
input. -/
theorem c4_upsert_strings (e n d : String) :
    upsert_value (.str e) (.str n) d =
      .str (if e = "" then n else if n = "" then e else e ++ d ++ n) := by
  simp only [upsert_value]
  split_ifs <;> rfl

/-- C1: a mapping whose destination path parses to the root (empty) segment
sequence does NOT apply the operation to the whole destination document:
`apply_mapping` discards `set_path_value`'s return value, and for the empty
path that return value is the only carrier of the write.  Concretely, a
root replace of the collapsed value `1` leaves the destination
`{"t": 2}` unchanged, although `parse_jq_path` yields the root sequence and
`set_path_value` itself returns the replaced whole-document value. -/
theorem c1_root_replace_discarded :
    apply_mapping (constEval [.num 1]) (.obj []) (.obj [("t", .num 2)])
        {src := ".a", dst := ".", mode := some "replace"} "\n" (.obj []) "" =
      .ok (.obj [("t", .num 2)]) ∧
    parse_jq_path "." = .ok [] ∧
    set_path_value (.obj [("t", .num 2)]) [] (.num 1) .replace "\n" = .ok (.num 1) ∧
    JVal.obj [("t", .num 2)] ≠ JVal.num 1 :=
  ⟨rfl, rfl, rfl, by decide⟩

/-- C3: the replace-mode collapse is as claimed at non-root destinations —
zero results store `null`, one result stores it, two or more store the full
ordered array, overwriting the prior value — but at the root destination
nothing is overwritten and a no-result mapping does not store `null`: the
write is discarded (the C1 slip), so the claim's "overwritten
unconditionally" fails there. -/
theorem c3_replace_collapse :
    apply_mapping (constEval []) (.obj []) (.obj [("t", .str "keep")])
        {src := ".b", dst := ".t", mode := some "replace"} "\n" (.obj []) "" =
      .ok (.obj [("t", .null)]) ∧
    apply_mapping (constEval [.num 7]) (.obj []) (.obj [("t", .str "keep")])
        {src := ".b", dst := ".t", mode := some "replace"} "\n" (.obj []) "" =
      .ok (.obj [("t", .num 7)]) ∧
    apply_mapping (constEval [.num 1, .num 2]) (.obj []) (.obj [("t", .str "keep")])
        {src := ".b", dst := ".t", mode := some "replace"} "\n" (.obj []) "" =
      .ok (.obj [("t", .arr [.num 1, .num 2])]) ∧
    apply_mapping (constEval []) (.obj []) (.obj [("keep", .str "v")])
        {src := ".b", dst := ".", mode := some "replace"} "\n" (.obj []) "" =
      .ok (.obj [("keep", .str "v")]) ∧
    JVal.obj [("keep", .str "v")] ≠ JVal.null :=
  ⟨rfl, rfl, rfl, rfl, by decide⟩

/-- C5 (counterexample): the navigation error does not carry the full path
or the conflicting segment index — two navigations over different segment
lists, conflicting at different positions (1 and 2), raise the identical
error value, so no reading of the error can recover either. -/
theorem c5_counterexample_payload_collision :
    set_path_go (.obj [("a", .num 5)]) [.name "a", .name "z", .name "q"]
        (.num 0) .replace "" =
      .error "Encountered non-object while navigating field .z" ∧
    set_path_go (.obj [("a", .obj [("b", .num 5)])])
        [.name "a", .name "b", .name "z", .name "q"] (.num 0) .replace "" =
      .error "Encountered non-object while navigating field .z" ∧
    [PathSeg.name "a", .name "z", .name "q"] ≠
      [PathSeg.name "a", .name "b", .name "z", .name "q"] :=
  ⟨rfl, rfl, by decide⟩

/-- C5 (amended): when a segment's kind conflicts with the value at the
current navigation point, `set_path_go` raises the type-mismatch error
naming that segment — the container is never coerced — but the error names
only the segment, not the full path or its index. -/
theorem c5_conflict_raises (cur : JVal) (seg : PathSeg) (rest : List PathSeg) (v : JVal)
    (mode : WriteMode) (d : String) (h : conflicts cur seg = true) :
    set_path_go cur (seg :: rest) v mode d = .error (conflictMsg seg rest.isEmpty) := by
  cases rest with
  | nil =>
      cases seg <;> cases cur <;>
        first
        | rfl
        | simp [conflicts] at h
  | cons s2 rest2 =>
      cases seg <;> cases cur <;>
        first
        | rfl
        | simp [conflicts] at h

/-- Witness for C5's amended theorem: a string segment meeting a string
value raises the final-segment type mismatch naming the key. -/
theorem c5_conflict_raises_witness :
    conflicts (.str "x") (.name "b") = true ∧
    set_path_go (.str "x") [.name "b"] (.num 0) .upsert "" =
      .error "Target parent is not an object for key 'b'" :=
  ⟨rfl, c5_conflict_raises (.str "x") (.name "b") [] (.num 0) .upsert "" rfl⟩

theorem growTo_length (xs : List JVal) (i : Nat) :
    (growTo xs i).length = max xs.length (i + 1) := by
  simp only [growTo, List.length_append, List.length_replicate]
  omega

theorem growTo_of_lt {xs : List JVal} {i : Nat} (h : i < xs.length) : growTo xs i = xs := by
  simp [growTo, Nat.sub_eq_zero_of_le h]

theorem objGet_objSet (fs : List (String × JVal)) (k : String) (v : JVal) :
    objGet (objSet fs k v) k = some v := by
  induction fs with
  | nil => simp [objGet, objSet]
  | cons p rest ih =>
      obtain ⟨k', v'⟩ := p
      by_cases hk : k' = k <;> simp [objGet, objSet, hk, ih]

theorem objSet_objSet (fs : List (String × JVal)) (k : String) (v w : JVal) :
    objSet (objSet fs k v) k w = objSet fs k w := by
  induction fs with
  | nil => simp [objSet]
  | cons p rest ih =>
      obtain ⟨k', v'⟩ := p
      by_cases hk : k' = k <;> simp [objSet, hk, ih]

theorem except_map_eq_ok {ε α β : Type} {f : α → β} {x : Except ε α} {b : β} :
    x.map f = .ok b ↔ ∃ a, x = .ok a ∧ f a = b := by
  cases x <;> simp [Except.map]

theorem except_map_eq_error {ε α β : Type} {f : α → β} {x : Except ε α} {e : ε} :
    x.map f = .error e ↔ x = .error e := by
  cases x <;> simp [Except.map]

theorem set_path_go_ok_ne_null {cur : JVal} {s : PathSeg} {ss : List PathSeg} {v : JVal}
    {m : WriteMode} {d : String} {r : JVal}
    (h : set_path_go cur (s :: ss) v m d = .ok r) : r ≠ JVal.null := by
  unfold set_path_go at h
  repeat' split at h
  all_goals intro hr
  all_goals subst hr
  all_goals first
    | (obtain ⟨a, -, hf⟩ := except_map_eq_ok.mp h
       simp at hf)
    | simp_all

theorem set_path_go_replace_idem :
    ∀ (segs : List PathSeg) (cur r v : JVal) (d : String),
      set_path_go cur segs v .replace d = .ok r →
      set_path_go r segs v .replace d = .ok r
  | [], cur, r, v, d => by
      intro h
      simp only [set_path_go, Except.ok.injEq] at h
      subst h
      rfl
  | [last], cur, r, v, d => by
      intro h
      cases last with
      | index i =>
          cases cur with
          | null => simp [set_path_go] at h
          | bool b => simp [set_path_go] at h
          | num n => simp [set_path_go] at h
          | str s => simp [set_path_go] at h
          | obj fs => simp [set_path_go] at h
          | arr xs =>
          simp only [set_path_go, Except.ok.injEq] at h
          subst h
          have hlen : i < ((growTo xs i).set i (deepcopy v)).length := by
            rw [List.length_set, growTo_length]
            omega
          simp only [set_path_go, growTo_of_lt hlen, List.set_set]
      | name k =>
          cases cur with
          | null => simp [set_path_go] at h
          | bool b => simp [set_path_go] at h
          | num n => simp [set_path_go] at h
          | str s => simp [set_path_go] at h
          | arr xs => simp [set_path_go] at h
          | obj fs =>
          simp only [set_path_go, Except.ok.injEq] at h
          subst h
          simp only [set_path_go, objSet_objSet]
  | s1 :: s2 :: rest, cur, r, v, d => by
      intro h
      cases s1 with
      | index i =>
          cases cur with
          | null => simp [set_path_go] at h
          | bool b => simp [set_path_go] at h
          | num n => simp [set_path_go] at h
          | str s => simp [set_path_go] at h
          | obj fs => simp [set_path_go] at h
          | arr xs =>
          simp only [set_path_go] at h
          obtain ⟨child', hrec, hr⟩ := except_map_eq_ok.mp h
          subst hr
          have hne := set_path_go_ok_ne_null hrec
          have hidem := set_path_go_replace_idem (s2 :: rest) _ _ v d hrec
          have hlen : i < ((growTo xs i).set i child').length := by
            rw [List.length_set, growTo_length]
            omega
          simp only [set_path_go, growTo_of_lt hlen]
          have hget : ((growTo xs i).set i child').getD i JVal.null = child' := by
            rw [List.getD_eq_getElem?_getD,
              List.getElem?_set_self (by rw [growTo_length]; omega)]
            rfl
          rw [hget, if_neg hne, hidem]
          simp [Except.map, List.set_set]
      | name k =>
          cases cur with
          | null => simp [set_path_go] at h
          | bool b => simp [set_path_go] at h
          | num n => simp [set_path_go] at h
          | str s => simp [set_path_go] at h
          | arr xs => simp [set_path_go] at h
          | obj fs =>
          simp only [set_path_go] at h
          obtain ⟨child', hrec, hr⟩ := except_map_eq_ok.mp h
          subst hr
          have hne := set_path_go_ok_ne_null hrec
          have hidem := set_path_go_replace_idem (s2 :: rest) _ _ v d hrec
          simp only [set_path_go, objGet_objSet]
          cases child' <;> simp_all [objSet_objSet, Except.map]

/-- Idempotence of a replace write at the effect level: re-running the same
discarded-return `set_path_value` call on the already-written document
reproduces it (at the root the call is a no-op both times). -/
theorem set_path_effect_replace_idem {root r v : JVal} {segs : List PathSeg} {d : String}
    (h : set_path_effect root segs v .replace d = .ok r) :
    set_path_effect r segs v .replace d = .ok r := by
  cases segs with
  | nil =>
      simp only [set_path_effect, Except.ok.injEq] at h
      subst h
      rfl
  | cons s ss =>
      simp only [set_path_effect] at h ⊢
      rcases hg : set_path_go root (s :: ss) v .replace d with e | r' <;> rw [hg] at h
      · exact absurd h (by simp [Except.mapError])
      · simp only [Except.mapError, Except.ok.injEq] at h
        subst h
        rw [set_path_go_replace_idem _ _ _ _ _ hg]
        rfl

/-- C9: replace is idempotent.  For every mapping in replace mode (any
destination path, including the root), every evaluator, source document,
context, prelude and delimiter, applying the mapping a second time to the
document produced by the first application reproduces that document. -/
theorem c9_replace_idempotent (evalSrc : Evaluator) (srcO d1 d2 : JVal) (m : Mapping)
    (delim : String) (ctx : JVal) (pre : String)
    (hmode : pyLower (m.mode.getD "upsert") = "replace")
    (h : apply_mapping evalSrc srcO d1 m delim ctx pre = .ok d2) :
    apply_mapping evalSrc srcO d2 m delim ctx pre = .ok d2 := by
  simp only [apply_mapping] at h ⊢
  rw [hmode] at h ⊢
  rw [if_neg (by simp)] at h ⊢
  rcases hdd : (match m.delimiter with
      | some (some s) => decode_delim s
      | _ => Except.ok delim) with e | eff
  · simp [hdd] at h
  · simp only [hdd] at h ⊢
    rcases hev : (evalSrc m.src srcO ctx pre).mapError JtlError.exprError with e | results
    · simp [hev] at h
    · simp only [hev] at h ⊢
      rcases hp : parse_jq_path m.dst with e | segs
      · simp [hp] at h
      · simp only [hp, if_true] at h ⊢
        exact set_path_effect_replace_idem h

/-- Witness for C9 at a concrete replace mapping: applying
`.x → .t (replace)` to its own one-application output reproduces it. -/
theorem c9_replace_idempotent_witness :
    pyLower ((({src := ".x", dst := ".t", mode := some "replace"} : Mapping)).mode.getD
      "upsert") = "replace" ∧
    apply_mapping (constEval [.num 5]) (.obj []) (.obj [("t", .num 5)])
        {src := ".x", dst := ".t", mode := some "replace"} "\n" (.obj []) "" =
      .ok (.obj [("t", .num 5)]) :=
  ⟨rfl, c9_replace_idempotent (constEval [.num 5]) (.obj []) (.obj []) (.obj [("t", .num 5)])
    {src := ".x", dst := ".t", mode := some "replace"} "\n" (.obj []) "" rfl rfl⟩

/-- C8 (counterexample): the effective delimiter is not the mapping's
`delimiter` field verbatim: the field `"\n"` written as the two-character
escape text backslash-`n` joins as a real newline, so the stored string is
`"a\nb"` and not `"a" + field + "b"`. -/
theorem c8_counterexample_field_decoded :
    apply_mapping (constEval [.str "b"]) (.obj []) (.obj [("t", .str "a")])
        {src := ".a", dst := ".t", delimiter := some (some "\\n")} "|" (.obj []) "" =
      .ok (.obj [("t", .str "a\nb")]) ∧
    ("a\nb" : String) ≠ "a" ++ "\\n" ++ "b" :=
  ⟨rfl, by decide⟩

/-- C8 (amended): the effective delimiter of a mapping is the
unicode-escape-decoded value of its own `delimiter` field when that field is
present and non-null — the caller-supplied default is then irrelevant — and
otherwise the caller-supplied default, used verbatim (a `null` field falls
back to the default exactly like an absent one). -/
theorem c8_effective_delimiter (evalSrc : Evaluator) (srcO dstO : JVal) (m : Mapping)
    (d₁ d₂ : String) (ctx : JVal) (pre : String) :
    (∀ s ds, m.delimiter = some (some s) → decode_delim s = .ok ds →
      apply_mapping evalSrc srcO dstO m d₁ ctx pre =
        apply_mapping evalSrc srcO dstO {m with delimiter := none} ds ctx pre ∧
      apply_mapping evalSrc srcO dstO m d₁ ctx pre =
        apply_mapping evalSrc srcO dstO m d₂ ctx pre) ∧
    (m.delimiter = some none ∨ m.delimiter = none →
      apply_mapping evalSrc srcO dstO m d₁ ctx pre =
        apply_mapping evalSrc srcO dstO {m with delimiter := none} d₁ ctx pre) := by
  constructor
  · intro s ds hdel hdec
    constructor
    · simp only [apply_mapping, hdel, hdec]
    · simp only [apply_mapping, hdel]
  · intro hdel
    rcases hdel with hdel | hdel <;> simp only [apply_mapping, hdel]

/-- Witness for C8's amended theorem: with a per-row delimiter present, the
default delimiter is irrelevant and the mapping behaves like a delimiterless
mapping run with the decoded field as default. -/
theorem c8_effective_delimiter_witness :
    decode_delim "\\n" = .ok "\n" ∧
    apply_mapping (constEval [.str "b"]) (.obj []) (.obj [("t", .str "a")])
        {src := ".a", dst := ".t", delimiter := some (some "\\n")} "|" (.obj []) "" =
      apply_mapping (constEval [.str "b"]) (.obj []) (.obj [("t", .str "a")])
        {src := ".a", dst := ".t"} "\n" (.obj []) "" :=
  ⟨rfl,
    (c8_effective_delimiter (constEval [.str "b"]) (.obj []) (.obj [("t", .str "a")])
      {src := ".a", dst := ".t", delimiter := some (some "\\n")} "|" "|" (.obj []) "").1
      "\\n" "\n" rfl rfl |>.1⟩

/-! Error-shape lemmas: every raise site downstream of the mode check
produces an error of a constructor other than `unsupportedMode`, which pins
the mode error to the mode check alone. -/

theorem tokToSeg_error_shape {t : RawTok} {e : JtlError} (h : tokToSeg t = .error e) :
    ∃ m, e = .decodeError m := by
  cases t with
  | ident s => simp [tokToSeg] at h
  | idx n => simp [tokToSeg] at h
  | quoted raw =>
      simp only [tokToSeg] at h
      rcases hu : (pyUnicodeEscape (String.mk raw)).mapError JtlError.decodeError
          with me | s <;> simp only [hu] at h
      · have hme : ∃ mm, me = .decodeError mm := by
          rcases hx : pyUnicodeEscape (String.mk raw) with a | b <;>
            rw [hx] at hu <;> simp [Except.mapError] at hu
          exact ⟨a, hu.symm⟩
        simp only [Except.error.injEq] at h
        obtain ⟨mm, rfl⟩ := hme
        exact ⟨mm, h.symm⟩
      · simp at h

theorem parseSegsGo_error_shape (path : String) :
    ∀ fuel cs first e, parseSegsGo path fuel cs first = .error e →
      (∃ m, e = .syntaxErr m) ∨ (∃ m, e = .decodeError m) := by
  intro fuel
  induction fuel with
  | zero =>
      intro cs first e h
      cases cs <;> simp only [parseSegsGo, Except.error.injEq] at h <;>
        exact Or.inl ⟨_, h.symm⟩
  | succ f ih =>
      intro cs first e h
      cases cs with
      | nil => simp [parseSegsGo] at h
      | cons c rest =>
          simp only [parseSegsGo] at h
          rcases hm : matchToken (c :: rest) with - | ⟨tok, rem⟩ <;> simp only [hm] at h
          · by_cases hif : (first && decide (path = ".")) = true
            · rw [if_pos hif] at h
              simp at h
            · rw [if_neg hif] at h
              simp only [Except.error.injEq] at h
              exact Or.inl ⟨_, h.symm⟩
          · rcases ht : tokToSeg tok with e' | seg <;> simp only [ht] at h
            · simp only [Except.error.injEq] at h
              obtain ⟨mm, rfl⟩ := tokToSeg_error_shape ht
              exact Or.inr ⟨mm, h.symm⟩
            · rcases hr : parseSegsGo path f rem false with e'' | segs <;> simp only [hr] at h
              · simp only [Except.error.injEq] at h
                obtain rfl := h
                exact ih rem false e'' hr
              · simp at h

theorem parse_jq_path_error_shape {p : String} {e : JtlError}
    (h : parse_jq_path p = .error e) :
    (∃ m, e = .syntaxErr m) ∨ (∃ m, e = .decodeError m) := by
  unfold parse_jq_path at h
  split at h
  · simp only [Except.error.injEq] at h
    exact Or.inl ⟨_, h.symm⟩
  · exact parseSegsGo_error_shape p _ _ _ _ h

theorem set_path_effect_error_shape {root v : JVal} {segs : List PathSeg} {mo : WriteMode}
    {d : String} {e : JtlError} (h : set_path_effect root segs v mo d = .error e) :
    ∃ m, e = .typeMismatch m := by
  cases segs with
  | nil => cases mo <;> simp [set_path_effect] at h
  | cons a l =>
      simp only [set_path_effect] at h
      rcases hg : set_path_go root (a :: l) v mo d with e' | r <;>
        simp [hg, Except.mapError] at h
      exact ⟨e', h.symm⟩

theorem except_bind_error {ε α β : Type} (e : ε) (g : α → Except ε β) :
    ((Except.error e : Except ε α) >>= g) = Except.error e := rfl

theorem except_bind_ok {ε α β : Type} (a : α) (g : α → Except ε β) :
    ((Except.ok a : Except ε α) >>= g) = g a := rfl

theorem except_pure_eq {ε α : Type} (a : α) : (pure a : Except ε α) = Except.ok a := rfl

theorem upsert_fold_error_shape {segs : List PathSeg} {eff : String} :
    ∀ (rs : List JVal) (dst : JVal) (e : JtlError),
      List.foldlM (fun d v => set_path_effect d segs v .upsert eff) dst rs = .error e →
      ∃ m, e = .typeMismatch m
  | [], dst, e => by
      intro h
      rw [List.foldlM_nil, except_pure_eq] at h
      exact absurd h (by simp)
  | r :: rs, dst, e => by
      intro h
      rw [List.foldlM_cons] at h
      rcases hs : set_path_effect dst segs r .upsert eff with e' | d'
      · rw [hs, except_bind_error] at h
        obtain ⟨mm, rfl⟩ := set_path_effect_error_shape hs
        simp only [Except.error.injEq] at h
        exact ⟨mm, h.symm⟩
      · rw [hs, except_bind_ok] at h
        exact upsert_fold_error_shape rs d' e h

theorem delim_match_error_shape {m : Mapping} {delim : String} {e : JtlError}
    (h : (match m.delimiter with
      | some (some s) => decode_delim s
      | _ => Except.ok delim) = .error e) :
    ∃ mm, e = .decodeError mm := by
  rcases hmd : m.delimiter with - | md
  · simp [hmd] at h
  · rcases md with - | s
    · simp [hmd] at h
    · simp only [hmd] at h
      unfold decode_delim at h
      rcases hu : pyUnicodeEscape s with me | t <;> simp [hu, Except.mapError] at h
      exact ⟨me, h.symm⟩

/-- C10: mode validation is case-insensitive.  A mapping behaves identically
under any mode spelling with the same lowercase form, and the
`Unsupported mode` error is raised exactly when the lowercased mode is
neither `"upsert"` nor `"replace"`. -/
theorem c10_mode_case_insensitive (evalSrc : Evaluator) (srcO dstO : JVal) (m : Mapping)
    (delim : String) (ctx : JVal) (pre : String) (ms : String) (hm : m.mode = some ms) :
    (∀ ms', pyLower ms' = pyLower ms →
      apply_mapping evalSrc srcO dstO m delim ctx pre =
        apply_mapping evalSrc srcO dstO {m with mode := some ms'} delim ctx pre) ∧
    (apply_mapping evalSrc srcO dstO m delim ctx pre =
        .error (.unsupportedMode (pyLower ms)) ↔
      (pyLower ms ≠ "upsert" ∧ pyLower ms ≠ "replace")) := by
  constructor
  · intro ms' h'
    simp only [apply_mapping, hm, Option.getD_some, h']
  · constructor
    · intro h
      by_contra hcon
      rw [not_and_or, not_not, not_not] at hcon
      simp only [apply_mapping, hm, Option.getD_some] at h
      rw [if_neg (by tauto)] at h
      rcases hdd : (match m.delimiter with
          | some (some s) => decode_delim s
          | _ => Except.ok delim) with e | eff <;> simp only [hdd] at h
      · obtain ⟨mm, rfl⟩ := delim_match_error_shape hdd
        simp at h
      · rcases hev : (evalSrc m.src srcO ctx pre).mapError JtlError.exprError
            with e | results <;> rw [hev] at h
        · have hex : ∃ mm, e = .exprError mm := by
            rcases hx : evalSrc m.src srcO ctx pre with ee | rr <;>
              rw [hx] at hev <;> simp [Except.mapError] at hev
            · exact ⟨ee, hev.symm⟩
          obtain ⟨mm, rfl⟩ := hex
          simp at h
        · rcases hp : parse_jq_path m.dst with e | segs <;> simp only [hp] at h
          · rcases parse_jq_path_error_shape hp with ⟨mm, rfl⟩ | ⟨mm, rfl⟩ <;> simp at h
          · rcases hcon with hcon | hcon <;> rw [hcon] at h
            · rw [if_neg (by decide)] at h
              obtain ⟨mm, hmm⟩ := upsert_fold_error_shape _ _ _ h
              simp at hmm
            · rw [if_pos rfl] at h
              obtain ⟨mm, hmm⟩ := set_path_effect_error_shape h
              simp at hmm
    · intro hcon
      simp only [apply_mapping, hm, Option.getD_some]
      rw [if_pos hcon]

theorem deep_merge_effect_falsy {c v : JVal} (h : pyTruthy v = false) :
    deep_merge_effect c v = c := by
  cases v with
  | obj fs =>
      simp only [pyTruthy] at h
      obtain rfl : fs = [] := by cases fs <;> simp_all
      cases c <;> simp [deep_merge_effect, deep_merge, deep_merge_fields]
  | arr xs => cases c <;> rfl
  | null => cases c <;> rfl
  | bool b => cases c <;> rfl
  | num n => cases c <;> rfl
  | str st => cases c <;> rfl

theorem withVal?_of_ctxVal? {it v : JVal} (h : ctxVal? it = some v) : withVal? it = none := by
  cases it with
  | obj fs =>
      rcases fs with - | ⟨⟨k, w⟩, fs'⟩
      · simp [ctxVal?] at h
      · rcases fs' with - | ⟨p2, fs2⟩
        · by_cases hk : k = "ctx"
          · subst hk
            simp [withVal?]
          · simp [ctxVal?, hk] at h
        · simp [ctxVal?] at h
  | null => simp [ctxVal?] at h
  | bool b => simp [ctxVal?] at h
  | num n => simp [ctxVal?] at h
  | str st => simp [ctxVal?] at h
  | arr xs => simp [ctxVal?] at h

theorem load_etl_go_spec :
    ∀ (items : List JVal) (ms0 : List JVal) (c0 : JVal) (p0 : String)
      (ms : List JVal) (ctx : JVal) (pre : String),
      load_etl_go items ms0 c0 p0 = .ok (ms, ctx, pre) →
      ms = ms0 ++ items.filter (fun it => (ctxVal? it).isNone && (withVal? it).isNone) ∧
      ctx = (items.filterMap ctxVal?).foldl deep_merge_effect c0 ∧
      (match (items.filterMap withVal?).getLast? with
       | none => pre = p0
       | some v => withToPrelude v = .ok pre)
  | [], ms0, c0, p0, ms, ctx, pre => by
      intro h
      simp only [load_etl_go, Except.ok.injEq, Prod.mk.injEq] at h
      obtain ⟨rfl, rfl, rfl⟩ := h
      simp
  | item :: rest, ms0, c0, p0, ms, ctx, pre => by
      intro h
      simp only [load_etl_go] at h
      rcases hc : ctxVal? item with - | v <;> simp only [hc] at h
      · rcases hw : withVal? item with - | v <;> simp only [hw] at h
        · obtain ⟨h1, h2, h3⟩ := load_etl_go_spec rest (ms0 ++ [item]) c0 p0 ms ctx pre h
          refine ⟨?_, ?_, ?_⟩
          · rw [h1, List.filter_cons, if_pos (by simp [hc, hw])]
            simp
          · rw [h2, List.filterMap_cons, hc]
          · rw [List.filterMap_cons, hw]
            exact h3
        · rcases hwp : withToPrelude v with e | p <;> simp only [hwp] at h
          · exact absurd h (by simp)
          · obtain ⟨h1, h2, h3⟩ := load_etl_go_spec rest ms0 c0 p ms ctx pre h
            refine ⟨?_, ?_, ?_⟩
            · rw [h1, List.filter_cons, if_neg (by simp [hw])]
            · rw [h2, List.filterMap_cons, hc]
            · rw [List.filterMap_cons, hw]
              rcases hfm : rest.filterMap withVal? with - | ⟨w0, ws⟩
              · rw [hfm] at h3
                simp only [List.getLast?_singleton]
                simp only [List.getLast?_eq_none_iff.mpr rfl] at h3
                subst h3
                exact hwp
              · rw [hfm] at h3
                rw [List.getLast?_cons_cons]
                exact h3
      · by_cases ht : pyTruthy v = true
        · rw [if_pos ht] at h
          obtain ⟨h1, h2, h3⟩ :=
            load_etl_go_spec rest ms0 (deep_merge_effect c0 v) p0 ms ctx pre h
          refine ⟨?_, ?_, ?_⟩
          · rw [h1, List.filter_cons, if_neg (by simp [hc])]
          · rw [h2, List.filterMap_cons, hc, List.foldl_cons]
          · rw [List.filterMap_cons, withVal?_of_ctxVal? hc]
            exact h3
        · rw [if_neg ht] at h
          obtain ⟨h1, h2, h3⟩ := load_etl_go_spec rest ms0 c0 p0 ms ctx pre h
          refine ⟨?_, ?_, ?_⟩
          · rw [h1, List.filter_cons, if_neg (by simp [hc])]
          · rw [h2, List.filterMap_cons, hc, List.foldl_cons,
              deep_merge_effect_falsy (Bool.not_eq_true _ ▸ ht)]
          · rw [List.filterMap_cons, withVal?_of_ctxVal? hc]
            exact h3

/-- C7: loading a list-form ETL spec classifies each element by its keys —
the singleton `{"ctx": …}` entries deep-merge into the accumulated context
in document order, the last singleton `{"with": …}` entry determines the
prelude (trimmed; absent any, the prelude is empty), and exactly the
remaining elements become the mapping list in their original order. -/
theorem c7_list_form_classification (items : List JVal) (ms : List JVal) (ctx : JVal)
    (pre : String) (h : load_etl_list items = .ok (ms, ctx, pre)) :
    ms = items.filter (fun it => (ctxVal? it).isNone && (withVal? it).isNone) ∧
    ctx = (items.filterMap ctxVal?).foldl deep_merge_effect (.obj []) ∧
    (match (items.filterMap withVal?).getLast? with
     | none => pre = ""
     | some v => withToPrelude v = .ok pre) := by
  have hs := load_etl_go_spec items [] (.obj []) "" ms ctx pre h
  simpa using hs

/-- Witness for C7 at a concrete list-form spec mixing two `ctx` entries,
two `with` entries (the later wins) and one mapping row. -/
theorem c7_list_form_classification_witness :
    ([JVal.obj [("src", .str ".a"), ("dst", .str ".b")]] =
      ([.obj [("ctx", .obj [("a", .num 1)])], .obj [("with", .str " f ")],
        .obj [("src", .str ".a"), ("dst", .str ".b")],
        .obj [("ctx", .obj [("b", .num 2)])],
        .obj [("with", .str "g")]] : List JVal).filter
        (fun it => (ctxVal? it).isNone && (withVal? it).isNone)) ∧
    (JVal.obj [("a", .num 1), ("b", .num 2)] =
      (([.obj [("ctx", .obj [("a", .num 1)])], .obj [("with", .str " f ")],
        .obj [("src", .str ".a"), ("dst", .str ".b")],
        .obj [("ctx", .obj [("b", .num 2)])],
        .obj [("with", .str "g")]] : List JVal).filterMap ctxVal?).foldl
        deep_merge_effect (.obj [])) ∧
    (match (([.obj [("ctx", .obj [("a", .num 1)])], .obj [("with", .str " f ")],
        .obj [("src", .str ".a"), ("dst", .str ".b")],
        .obj [("ctx", .obj [("b", .num 2)])],
        .obj [("with", .str "g")]] : List JVal).filterMap withVal?).getLast? with
     | none => ("g" : String) = ""
     | some v => withToPrelude v = .ok "g") :=
  c7_list_form_classification
    [.obj [("ctx", .obj [("a", .num 1)])], .obj [("with", .str " f ")],
     .obj [("src", .str ".a"), ("dst", .str ".b")],
     .obj [("ctx", .obj [("b", .num 2)])],
     .obj [("with", .str "g")]]
    [.obj [("src", .str ".a"), ("dst", .str ".b")]]
    (.obj [("a", .num 1), ("b", .num 2)]) "g"
    (by simp [load_etl_list, load_etl_go, ctxVal?, withVal?, pyTruthy,
      deep_merge_effect, deep_merge, deep_merge_fields, objGet, objSet, deepcopy,
      withToPrelude, pyStrip, isPySpace])

/-! Allocation lemmas for the identity-tagged model: `deepcopyP` produces
only fresh ids (in `[c, c')`), and `deep_mergeP` produces only `dst`'s ids
and fresh ids — never an id of `src`. -/

mutual

theorem deepcopyP_bounds : ∀ (v : PVal) (c : Nat),
    c ≤ (deepcopyP v c).2 ∧
    ∀ i ∈ (deepcopyP v c).1.mutIds, c ≤ i ∧ i < (deepcopyP v c).2
  | .null, c => ⟨le_refl c, by simp [deepcopyP, PVal.mutIds]⟩
  | .bool b, c => ⟨le_refl c, by simp [deepcopyP, PVal.mutIds]⟩
  | .num n, c => ⟨le_refl c, by simp [deepcopyP, PVal.mutIds]⟩
  | .str s, c => ⟨le_refl c, by simp [deepcopyP, PVal.mutIds]⟩
  | .arr j xs, c => by
      have hL := deepcopyListP_bounds xs (c + 1)
      rcases hE : deepcopyListP xs (c + 1) with ⟨ys, c2⟩
      rw [hE] at hL
      obtain ⟨hle, hids⟩ := hL
      refine ⟨by simp only [deepcopyP, hE]; omega, ?_⟩
      intro i hi
      simp only [deepcopyP, hE, PVal.mutIds, List.mem_cons] at hi ⊢
      rcases hi with rfl | hi
      · omega
      · have := hids i hi
        omega
  | .obj j fs, c => by
      have hL := deepcopyFieldsP_bounds fs (c + 1)
      rcases hE : deepcopyFieldsP fs (c + 1) with ⟨gs, c2⟩
      rw [hE] at hL
      obtain ⟨hle, hids⟩ := hL
      refine ⟨by simp only [deepcopyP, hE]; omega, ?_⟩
      intro i hi
      simp only [deepcopyP, hE, PVal.mutIds, List.mem_cons] at hi ⊢
      rcases hi with rfl | hi
      · omega
      · have := hids i hi
        omega

theorem deepcopyListP_bounds : ∀ (vs : List PVal) (c : Nat),
    c ≤ (deepcopyListP vs c).2 ∧
    ∀ i ∈ PVal.mutIdsList (deepcopyListP vs c).1, c ≤ i ∧ i < (deepcopyListP vs c).2
  | [], c => ⟨le_refl c, by simp [deepcopyListP, PVal.mutIdsList]⟩
  | v :: vs, c => by
      have h1 := deepcopyP_bounds v c
      rcases hE1 : deepcopyP v c with ⟨v', c1⟩
      rw [hE1] at h1
      have h2 := deepcopyListP_bounds vs c1
      rcases hE2 : deepcopyListP vs c1 with ⟨vs', c2⟩
      rw [hE2] at h2
      refine ⟨by simp only [deepcopyListP, hE1, hE2]; omega, ?_⟩
      intro i hi
      simp only [deepcopyListP, hE1, hE2, PVal.mutIdsList, List.mem_append] at hi ⊢
      rcases hi with hi | hi
      · have := h1.2 i hi
        omega
      · have := h2.2 i hi
        omega

theorem deepcopyFieldsP_bounds : ∀ (fs : List (String × PVal)) (c : Nat),
    c ≤ (deepcopyFieldsP fs c).2 ∧
    ∀ i ∈ PVal.mutIdsFields (deepcopyFieldsP fs c).1, c ≤ i ∧ i < (deepcopyFieldsP fs c).2
  | [], c => ⟨le_refl c, by simp [deepcopyFieldsP, PVal.mutIdsFields]⟩
  | (k, v) :: fs, c => by
      have h1 := deepcopyP_bounds v c
      rcases hE1 : deepcopyP v c with ⟨v', c1⟩
      rw [hE1] at h1
      have h2 := deepcopyFieldsP_bounds fs c1
      rcases hE2 : deepcopyFieldsP fs c1 with ⟨fs', c2⟩
      rw [hE2] at h2
      refine ⟨by simp only [deepcopyFieldsP, hE1, hE2]; omega, ?_⟩
      intro i hi
      simp only [deepcopyFieldsP, hE1, hE2, PVal.mutIdsFields, List.mem_append] at hi ⊢
      rcases hi with hi | hi
      · have := h1.2 i hi
        omega
      · have := h2.2 i hi
        omega

end

theorem mutIdsFields_pObjSet :
    ∀ (fs : List (String × PVal)) (k : String) (v : PVal) (i : Nat),
      i ∈ PVal.mutIdsFields (pObjSet fs k v) → i ∈ PVal.mutIdsFields fs ∨ i ∈ v.mutIds
  | [], k, v, i => by
      simp [pObjSet, PVal.mutIdsFields]
  | (k', v') :: rest, k, v, i => by
      intro hi
      by_cases hk : k' = k
      · simp only [pObjSet, if_pos hk, PVal.mutIdsFields, List.mem_append] at hi
        simp only [PVal.mutIdsFields, List.mem_append]
        tauto
      · simp only [pObjSet, if_neg hk, PVal.mutIdsFields, List.mem_append] at hi
        simp only [PVal.mutIdsFields, List.mem_append]
        rcases hi with hi | hi
        · tauto
        · rcases mutIdsFields_pObjSet rest k v i hi with h | h <;> tauto

theorem pObjGet_ids :
    ∀ (fs : List (String × PVal)) (k : String) (v : PVal), pObjGet fs k = some v →
      ∀ i ∈ v.mutIds, i ∈ PVal.mutIdsFields fs
  | [], k, v => by simp [pObjGet]
  | (k', v') :: rest, k, v => by
      intro hg i hi
      by_cases hk : k' = k
      · simp only [pObjGet, if_pos hk, Option.some.injEq] at hg
        subst hg
        simp only [PVal.mutIdsFields, List.mem_append]
        exact Or.inl hi
      · simp only [pObjGet, if_neg hk] at hg
        simp only [PVal.mutIdsFields, List.mem_append]
        exact Or.inr (pObjGet_ids rest k v hg i hi)

theorem bounds_from_copy (dst src : PVal) (c : Nat)
    (heq : deep_mergeP dst src c = deepcopyP src c) :
    c ≤ (deep_mergeP dst src c).2 ∧
    ∀ i ∈ (deep_mergeP dst src c).1.mutIds,
      i ∈ dst.mutIds ∨ (c ≤ i ∧ i < (deep_mergeP dst src c).2) := by
  rw [heq]
  have h := deepcopyP_bounds src c
  exact ⟨h.1, fun i hi => Or.inr (h.2 i hi)⟩

mutual

theorem deep_mergeP_bounds : ∀ (dst src : PVal) (c : Nat),
    c ≤ (deep_mergeP dst src c).2 ∧
    ∀ i ∈ (deep_mergeP dst src c).1.mutIds,
      i ∈ dst.mutIds ∨ (c ≤ i ∧ i < (deep_mergeP dst src c).2)
  | dst, src, c => by
      cases dst with
      | obj di dfs =>
          cases src with
          | obj sj sfs =>
              have hF := deep_merge_fieldsP_bounds dfs sfs c
              rcases hE : deep_merge_fieldsP dfs sfs c with ⟨dfs', c2⟩
              rw [hE] at hF
              obtain ⟨hle, hids⟩ := hF
              refine ⟨by simp only [deep_mergeP, hE]; exact hle, ?_⟩
              intro i hi
              simp only [deep_mergeP, hE, PVal.mutIds, List.mem_cons] at hi ⊢
              rcases hi with rfl | hi
              · exact Or.inl (Or.inl rfl)
              · rcases hids i hi with hin | hr
                · exact Or.inl (Or.inr hin)
                · exact Or.inr hr
          | null => exact bounds_from_copy _ _ _ (by simp [deep_mergeP])
          | bool b => exact bounds_from_copy _ _ _ (by simp [deep_mergeP])
          | num n => exact bounds_from_copy _ _ _ (by simp [deep_mergeP])
          | str st => exact bounds_from_copy _ _ _ (by simp [deep_mergeP])
          | arr aj axs => exact bounds_from_copy _ _ _ (by simp [deep_mergeP])
      | null => exact bounds_from_copy _ _ _ (by cases src <;> simp [deep_mergeP])
      | bool b => exact bounds_from_copy _ _ _ (by cases src <;> simp [deep_mergeP])
      | num n => exact bounds_from_copy _ _ _ (by cases src <;> simp [deep_mergeP])
      | str st => exact bounds_from_copy _ _ _ (by cases src <;> simp [deep_mergeP])
      | arr aj axs => exact bounds_from_copy _ _ _ (by cases src <;> simp [deep_mergeP])
termination_by dst src c => sizeOf src

theorem deep_merge_fieldsP_bounds : ∀ (dfs sfs : List (String × PVal)) (c : Nat),
    c ≤ (deep_merge_fieldsP dfs sfs c).2 ∧
    ∀ i ∈ PVal.mutIdsFields (deep_merge_fieldsP dfs sfs c).1,
      i ∈ PVal.mutIdsFields dfs ∨ (c ≤ i ∧ i < (deep_merge_fieldsP dfs sfs c).2)
  | dfs, [], c => by
      constructor
      · simp [deep_merge_fieldsP]
      · intro i hi
        simp only [deep_merge_fieldsP] at hi
        exact Or.inl hi
  | dfs, (k, v) :: rest, c => by
      rcases hg : pObjGet dfs k with - | dv
      · have hCP := deepcopyP_bounds v c
        rcases hcp : deepcopyP v c with ⟨v', c1⟩
        rw [hcp] at hCP
        have hR := deep_merge_fieldsP_bounds (pObjSet dfs k v') rest c1
        rcases hE : deep_merge_fieldsP (pObjSet dfs k v') rest c1 with ⟨out, c2⟩
        rw [hE] at hR
        refine ⟨by simp only [deep_merge_fieldsP, hg, hcp, hE]; omega, ?_⟩
        intro i hi
        simp only [deep_merge_fieldsP, hg, hcp, hE] at hi ⊢
        rcases hR.2 i hi with hin | hr
        · rcases mutIdsFields_pObjSet _ _ _ _ hin with hin2 | hinv
          · exact Or.inl hin2
          · have := hCP.2 i hinv
            exact Or.inr (by omega)
        · exact Or.inr (by omega)
      · by_cases hbo : (dv.isObjP && v.isObjP) = true
        · have hM := deep_mergeP_bounds dv v c
          rcases hm : deep_mergeP dv v c with ⟨m, c1⟩
          rw [hm] at hM
          have hR := deep_merge_fieldsP_bounds (pObjSet dfs k m) rest c1
          rcases hE : deep_merge_fieldsP (pObjSet dfs k m) rest c1 with ⟨out, c2⟩
          rw [hE] at hR
          refine ⟨by simp only [deep_merge_fieldsP, hg, if_pos hbo, hm, hE]; omega, ?_⟩
          intro i hi
          simp only [deep_merge_fieldsP, hg, if_pos hbo, hm, hE] at hi ⊢
          rcases hR.2 i hi with hin | hr
          · rcases mutIdsFields_pObjSet _ _ _ _ hin with hin2 | hinm
            · exact Or.inl hin2
            · rcases hM.2 i hinm with hind | hrd
              · exact Or.inl (pObjGet_ids dfs k dv hg i hind)
              · exact Or.inr (by omega)
          · exact Or.inr (by omega)
        · have hCP := deepcopyP_bounds v c
          rcases hcp : deepcopyP v c with ⟨v', c1⟩
          rw [hcp] at hCP
          have hR := deep_merge_fieldsP_bounds (pObjSet dfs k v') rest c1
          rcases hE : deep_merge_fieldsP (pObjSet dfs k v') rest c1 with ⟨out, c2⟩
          rw [hE] at hR
          refine ⟨by simp only [deep_merge_fieldsP, hg, if_neg hbo, hcp, hE]; omega, ?_⟩
          intro i hi
          simp only [deep_merge_fieldsP, hg, if_neg hbo, hcp, hE] at hi ⊢
          rcases hR.2 i hi with hin | hr
          · rcases mutIdsFields_pObjSet _ _ _ _ hin with hin2 | hinv
            · exact Or.inl hin2
            · have := hCP.2 i hinv
              exact Or.inr (by omega)
          · exact Or.inr (by omega)
termination_by dfs sfs c => sizeOf sfs

end

/-- C2 (counterexample): an upsert write into the destination tree does NOT
always store an independent deep copy.  Upserting the evaluator-produced
object `⟨id 2⟩{}` into the destination `⟨id 0⟩{"t": ⟨id 1⟩[]}` (whose value
at `"t"` is an array) stores the object itself: the written destination
shares mutable node id 2 with the new value, although the inputs were
disjoint and pre-allocated, so mutating the evaluator's value would change
the destination tree. -/
theorem c2_counterexample_array_upsert_aliases :
    (∀ i ∈ PVal.mutIds (.obj 0 [("t", PVal.arr 1 [])]), i < 3) ∧
    (∀ i ∈ PVal.mutIds (.obj 2 ([] : List (String × PVal))), i < 3) ∧
    (∀ i ∈ PVal.mutIds (.obj 0 [("t", PVal.arr 1 [])]),
      i ∉ PVal.mutIds (.obj 2 ([] : List (String × PVal)))) ∧
    (setKeyP 0 [("t", .arr 1 [])] "t" (.obj 2 []) .upsert "\n" 3).1 =
      .obj 0 [("t", .arr 3 [.obj 2 []])] ∧
    2 ∈ PVal.mutIds (setKeyP 0 [("t", .arr 1 [])] "t" (.obj 2 []) .upsert "\n" 3).1 ∧
    2 ∈ PVal.mutIds (.obj 2 ([] : List (String × PVal))) :=
  ⟨by decide, by decide, by decide, rfl, by decide, by decide⟩

theorem no_alias_of_copy (new_value : PVal) (c : Nat)
    (hnew : ∀ i ∈ new_value.mutIds, i < c) :
    ∀ i ∈ (deepcopyP new_value c).1.mutIds, i ∉ new_value.mutIds := by
  intro i hi hin
  have h1 := (deepcopyP_bounds new_value c).2 i hi
  have h2 := hnew i hin
  omega

/-- C2 (amended): replace writes always store an independent deep copy, and
upsert writes do so whenever the existing value at the target is not an
array; when it is an array, the new value's element objects (or the new
value object itself, when it is not a list) are spliced into the fresh
destination list by reference, so they remain shared with the evaluator's
value.  Hypotheses: both trees are pre-allocated below the allocation
counter and share no mutable node. -/
theorem c2_copy_discipline (existing new_value : PVal) (delim : String) (c : Nat)
    (hnew : ∀ i ∈ new_value.mutIds, i < c)
    (hdisj : ∀ i ∈ existing.mutIds, i ∉ new_value.mutIds) :
    (∀ i ∈ (deepcopyP new_value c).1.mutIds, i ∉ new_value.mutIds) ∧
    (existing.isArrP = false →
      ∀ i ∈ (upsertP existing new_value delim c).1.mutIds, i ∉ new_value.mutIds) ∧
    (∀ j xs, existing = .arr j xs →
      (upsertP existing new_value delim c).1 = .arr c (xs ++ elemsOrSelf new_value)) := by
  refine ⟨no_alias_of_copy new_value c hnew, ?_, ?_⟩
  · intro hna i hi hin
    have hb := (deepcopyP_bounds new_value c).2
    have hlt := hnew i hin
    cases existing with
    | arr j xs => simp [PVal.isArrP] at hna
    | null =>
        cases new_value <;> simp only [upsertP] at hi <;>
          · have := hb i hi
            omega
    | bool b =>
        cases new_value <;> simp only [upsertP] at hi <;>
          · have := hb i hi
            omega
    | num n =>
        cases new_value <;> simp only [upsertP] at hi <;>
          · have := hb i hi
            omega
    | str e =>
        cases new_value with
        | str n2 =>
            simp only [upsertP] at hi
            split_ifs at hi <;> simp [PVal.mutIds] at hi
        | null =>
            simp only [upsertP] at hi
            have := hb i hi
            omega
        | bool b2 =>
            simp only [upsertP] at hi
            have := hb i hi
            omega
        | num n2 =>
            simp only [upsertP] at hi
            have := hb i hi
            omega
        | arr j2 xs2 =>
            simp only [upsertP] at hi
            have := hb i hi
            omega
        | obj j2 fs2 =>
            simp only [upsertP] at hi
            have := hb i hi
            omega
    | obj oj ofs =>
        cases new_value with
        | obj nj nfs =>
            simp only [upsertP] at hi
            rcases (deep_mergeP_bounds (.obj oj ofs) (.obj nj nfs) c).2 i hi with hin2 | hr
            · exact hdisj i hin2 hin
            · omega
        | null =>
            simp only [upsertP] at hi
            have := hb i hi
            omega
        | bool b2 =>
            simp only [upsertP] at hi
            have := hb i hi
            omega
        | num n2 =>
            simp only [upsertP] at hi
            have := hb i hi
            omega
        | str s2 =>
            simp only [upsertP] at hi
            have := hb i hi
            omega
        | arr j2 xs2 =>
            simp only [upsertP] at hi
            have := hb i hi
            omega
  · intro j xs hx
    subst hx
    cases new_value <;> simp [upsertP, elemsOrSelf]

/-- Witness for C2's amended theorem: a dict-into-dict upsert at disjoint
pre-allocated trees shares no mutable node with the new value. -/
theorem c2_copy_discipline_witness :
    (∀ i ∈ PVal.mutIds (.obj 1 [("y", PVal.num 2)]), i < 2) ∧
    (∀ i ∈ PVal.mutIds (.obj 0 [("x", PVal.str "a")]),
      i ∉ PVal.mutIds (.obj 1 [("y", PVal.num 2)])) ∧
    ((PVal.obj 0 [("x", PVal.str "a")]).isArrP = false →
      ∀ i ∈ (upsertP (.obj 0 [("x", PVal.str "a")]) (.obj 1 [("y", PVal.num 2)])
          "\n" 2).1.mutIds,
        i ∉ PVal.mutIds (.obj 1 [("y", PVal.num 2)])) :=
  ⟨by decide, by decide,
    (c2_copy_discipline (.obj 0 [("x", .str "a")]) (.obj 1 [("y", .num 2)]) "\n" 2
      (by decide) (by decide)).2.1⟩

/-- C6: a chain step that references the sentinel `"$prev"` while no prior
step output exists (`prevObj = none`, as at the first step) fails with
`InvalidChainStateError` and yields no result document — for the source
sentinel immediately, and for the destination sentinel as soon as the
source document has been resolved. -/
theorem c6_prev_before_output (env : ChainEnv) (dir : String) (mctx : JVal)
    (ddelim : String) (idx : Nat) (fin : Option JVal) (step : MetaStep)
    (rest : List MetaStep) (etl_rel src_rel : String)
    (spec : List Mapping × JVal × String) (srcDoc : JVal)
    (hetl : step.etl = some etl_rel) (hetlne : etl_rel ≠ "")
    (hsrc : step.src = some src_rel) (hsrcne : src_rel ≠ "")
    (hload : env.loadEtl (env.join dir etl_rel) = .ok spec) :
    (src_rel = "$prev" →
      runMetaSteps env dir mctx ddelim idx none fin (step :: rest) =
        .error (.invalidChainState ("Step " ++ toString idx ++
          ": src '$prev' used but no previous output exists"))) ∧
    (step.dst = some "$prev" → src_rel ≠ "$prev" →
      env.loadJson (env.join dir src_rel) = .ok srcDoc →
      runMetaSteps env dir mctx ddelim idx none fin (step :: rest) =
        .error (.invalidChainState ("Step " ++ toString idx ++
          ": dst '$prev' used but no previous output exists"))) := by
  obtain ⟨mappings, etl_ctx, pre⟩ := spec
  constructor
  · intro hprev
    subst hprev
    simp only [runMetaSteps, hetl, hsrc, optStrFalsy]
    rw [if_neg (by simp [hetlne])]
    simp [hload]
  · intro hdst hne hjson
    simp only [runMetaSteps, hetl, hsrc, optStrFalsy]
    rw [if_neg (by simp [hetlne, hsrcne])]
    simp only [hload]
    rw [if_neg hne]
    simp [hjson, hdst]

/-- Concrete chain environment used to witness the chain-state theorem. -/
def plainEnv : ChainEnv where
  loadEtl := fun _ => .ok ([], .obj [], "")
  loadJson := fun _ => .ok (.obj [])
  pathExists := fun _ => false
  join := fun a b => a ++ "/" ++ b
  evalSrc := fun _ _ _ _ => .ok []

/-- Witness for C6: a first step whose `src` is `"$prev"` fails with the
chain-state error. -/
theorem c6_prev_before_output_witness :
    runMetaSteps plainEnv "." (.obj []) "\n" 1 none none
        [{etl := some "e.json", src := some "$prev"}] =
      .error (.invalidChainState "Step 1: src '$prev' used but no previous output exists") :=
  (c6_prev_before_output plainEnv "." (.obj []) "\n" 1 none
    {etl := some "e.json", src := some "$prev"} [] "e.json" "$prev"
    ([], .obj [], "") (.obj []) rfl (by decide) rfl (by decide) rfl).1 rfl

/-- Witness for C10: the spelling `"RePlAcE"` is accepted and behaves as
`"replace"`. -/
theorem c10_mode_case_insensitive_witness :
    apply_mapping (constEval [.str "x"]) (.obj []) (.obj [])
        {src := ".a", dst := ".t", mode := some "RePlAcE"} "\n" (.obj []) "" =
      apply_mapping (constEval [.str "x"]) (.obj []) (.obj [])
        {src := ".a", dst := ".t", mode := some "replace"} "\n" (.obj []) "" :=
  (c10_mode_case_insensitive (constEval [.str "x"]) (.obj []) (.obj [])
    {src := ".a", dst := ".t", mode := some "RePlAcE"} "\n" (.obj []) "" "RePlAcE" rfl).1
    "replace" (by decide)

end Jtl
